import Mathlib

/-!
Verification development for `src/train/Telecom/train_ftt/experiment_with_optuna.py`.

The script runs an Optuna hyperparameter search for an FT-Transformer.  The
trial evaluator (`objective`, lines 22-148), the snapshot callback
(`save_callback`, lines 170-181) and the finalization block (lines 193-230)
are embedded below as executable Lean functions.  External collaborators
(the data provider, the epoch runner `train`/`val`/`evaluate`, numpy's `std`,
and the pruner's decision) are modelled as fields of an environment record:
each is a black box that the script only observes through return values, so
an arbitrary function of the call site is the exact generality of the source.
Machine floats are modelled as exact rationals.
-/

namespace FTTOptuna

/-- Line 18: `seeds = [0, 1, 2]`. -/
def seedsList : List Nat := [0, 1, 2]

/-- Line 38: `patience_epochs = 10`. -/
def patienceEpochs : Nat := 10

/-- Line 39: `min_delta = 1e-4`. -/
def minDelta : ℚ := 1 / 10000

/-- Line 87: `for epoch in range(100)`. -/
def maxEpochs : Nat := 100

/-- The hyperparameters sampled at lines 26-35, one field per `trial.suggest_*`. -/
structure Hyperparams where
  lr : ℚ
  weight_decay : ℚ
  num_embedding_type : String
  n_heads : Nat
  d_embedding : Nat
  n_layers : Nat
  attention_dropout : ℚ
  ffn_dropout : ℚ
  residual_dropout : ℚ
  batch_size : Nat
deriving DecidableEq

/-- Line 28: the categorical choices offered for `num_embedding_type`. -/
def embeddingTypeChoices : List String := ["L", "LR", "LR-LR", "P", "P-LR", "P-LR-LR"]

/-- Line 58: the tags for which `get_num_embedding` would receive `y_train`. -/
def labelAwareTags : List String := ["T", "T-L", "T-LR", "T-LR-LR"]

/-- Line 58: the `y_train` argument of `get_num_embedding`:
`y['train'] if num_embedding_type in ("T", "T-L", "T-LR", "T-LR-LR") else None`. -/
def yTrainArgument {α : Type} (tag : String) (yTrain : α) : Option α :=
  if labelAwareTags.contains tag then some yTrain else none

/-- The exceptional outcomes of one `objective` call: `optuna.TrialPruned`
(line 95) or any other exception raised by a collaborator.  In Python both
derive from `Exception`. -/
inductive TrialExc where
  | pruned : TrialExc
  | error : String → TrialExc
deriving DecidableEq

/-- The external collaborators of `objective` for one trial, as black-box
functions of the call site.  `lossTrain`/`lossVal` give the result of the
`train`/`val` calls at (seed, epoch) (lines 88-89), possibly an exception;
`shouldPrune` is the pruner's answer to `trial.should_prune()` at the call
made at (seed, epoch) (line 94) — each such call happens at most once per
trial, so a function of the call site covers every pruner behaviour;
`evalTest` is the `(auc, pr_auc)` pair returned by
`evaluate(model, 'test', X, y, seed)` when the model has been trained through
the given epoch (lines 100, 109); `stdFn` is numpy's `np.std` (line 118),
kept opaque because it involves a square root. -/
structure Env where
  lossTrain : Nat → Nat → Except String ℚ
  lossVal : Nat → Nat → Except String ℚ
  shouldPrune : Nat → Nat → Bool
  evalTest : Nat → Nat → ℚ × ℚ
  stdFn : List ℚ → ℚ

/-- Line 97: `loss_val < best_val_loss - min_delta`, with
`best_val_loss` initialized to `float('inf')` (line 83) modelled as `none`:
any finite loss is below infinity minus the delta. -/
def improves (best : Option ℚ) (lv : ℚ) : Bool :=
  match best with
  | none => true
  | some b => decide (lv < b - minDelta)

/-- Lines 87-106, the per-seed epoch loop, instrumented with a trace of the
`(seed, epoch, loss_val)` triples for which the epoch body ran through the
`trial.report(loss_val, epoch)` call (line 93).  State: `best` is
`best_val_loss` (`none` = infinity), `bm` is `best_metrics`, `pc` is
`patience_counter`, `le` is the last epoch executed (the state the model is
left in when the loop exits, used by the line 109 fallback).  The
`scheduler.step` call (line 91) only mutates the external optimizer and is
not observable here.  On success it returns `(best_metrics, last_epoch)`. -/
def epochLoopT (env : Env) (s : Nat) :
    List Nat → Option ℚ → Option (ℚ × ℚ) → Nat → Nat →
    Except TrialExc (Option (ℚ × ℚ) × Nat) × List (Nat × Nat × ℚ)
  | [], _, bm, _, le => (.ok (bm, le), [])
  | e :: rest, best, bm, pc, _ =>
    match env.lossTrain s e with
    | .error m => (.error (.error m), [])
    | .ok _ =>
      match env.lossVal s e with
      | .error m => (.error (.error m), [])
      | .ok lv =>
        if env.shouldPrune s e then (.error .pruned, [(s, e, lv)])
        else if improves best lv then
          let r := epochLoopT env s rest (some lv) (some (env.evalTest s e)) 0 e
          (r.1, (s, e, lv) :: r.2)
        else if patienceEpochs ≤ pc + 1 then (.ok (bm, e), [(s, e, lv)])
        else
          let r := epochLoopT env s rest best bm (pc + 1) e
          (r.1, (s, e, lv) :: r.2)

/-- Lines 45-115, the loop `for seed_idx, seed in enumerate(seeds)`,
accumulating `aucs` and `pr_aucs` (lines 42-43, 111-112).  The line 108-109
fallback evaluates the model in its final state when `best_metrics` was never
set. -/
def runSeedsT (env : Env) :
    List Nat → List ℚ → List ℚ →
    Except TrialExc (List ℚ × List ℚ) × List (Nat × Nat × ℚ)
  | [], aucs, praucs => (.ok (aucs, praucs), [])
  | s :: rest, aucs, praucs =>
    match epochLoopT env s (List.range maxEpochs) none none 0 0 with
    | (.error ex, t) => (.error ex, t)
    | (.ok (bm, le), t) =>
      let m := bm.getD (env.evalTest s le)
      let r := runSeedsT env rest (aucs ++ [m.1]) (praucs ++ [m.2])
      (r.1, t ++ r.2)

/-- `np.mean` (lines 117, 119) over exact rationals: sum divided by length. -/
def npMean (xs : List ℚ) : ℚ := xs.sum / (xs.length : ℚ)

/-- Lines 121-142: the `detailed_results` user attribute attached to the
trial. -/
structure DetailedResult where
  hyperparams : Hyperparams
  aucs_per_seed : List ℚ
  pr_aucs_per_seed : List ℚ
  mean_auc : ℚ
  std_auc : ℚ
  mean_pr_auc : ℚ
  seeds : List Nat
deriving DecidableEq

/-- Lines 41-144 of `objective`: run all seeds, then aggregate (lines
117-119), attach the `DetailedResult` (lines 121-142) and return `mean_auc`
(line 144).  The second component is the instrumentation trace of processed
(seed, epoch, loss_val) steps. -/
def objectiveT (env : Env) (hp : Hyperparams) :
    Except TrialExc (ℚ × DetailedResult) × List (Nat × Nat × ℚ) :=
  match runSeedsT env seedsList [] [] with
  | (.error ex, t) => (.error ex, t)
  | (.ok (aucs, praucs), t) =>
    (.ok (npMean aucs,
      { hyperparams := hp
        aucs_per_seed := aucs
        pr_aucs_per_seed := praucs
        mean_auc := npMean aucs
        std_auc := env.stdFn aucs
        mean_pr_auc := npMean praucs
        seeds := seedsList }), t)

/-- The message Python's `str` gives for each exception: `str(optuna.TrialPruned())`
is the empty string, other exceptions carry their message. -/
def excMessage : TrialExc → String
  | .pruned => ""
  | .error m => m

/-- Lines 146-148: `except Exception as e: logger.error(f"Error in trial
{trial.number}: {str(e)}"); raise`.  `optuna.TrialPruned` derives from
`optuna.exceptions.OptunaError`, which derives from `Exception`, so this
handler catches the pruning signal as well and logs it before re-raising.
Returns the propagated outcome together with the list of `logger.error`
lines emitted. -/
def objectiveLogged (env : Env) (hp : Hyperparams) (trialNumber : Nat) :
    (Except TrialExc (ℚ × DetailedResult) × List (Nat × Nat × ℚ)) × List String :=
  match objectiveT env hp with
  | (.ok r, t) => ((.ok r, t), [])
  | (.error ex, t) =>
    ((.error ex, t),
      ["Error in trial " ++ toString trialNumber ++ ": " ++ excMessage ex])

/-- The sequence of `trial.report(loss_val, epoch)` calls made during the
trial (line 93), in order: the reported value is `loss_val` and the reported
step is `epoch` — exactly as the arguments appear in the source. -/
def reportsOf (env : Env) (hp : Hyperparams) : List (ℚ × Nat) :=
  (objectiveT env hp).2.map (fun x => (x.2.2, x.2.1))

/-- The same environment with a pruner that never fires. -/
def noPrune (env : Env) : Env := { env with shouldPrune := fun _ _ => false }

/-- Boolean success test for a trial outcome. -/
def isOkB {α : Type} : Except TrialExc α → Bool
  | .ok _ => true
  | .error _ => false

/-- The per-seed outcome of the seed loop as called from line 45's loop:
`some (best auc, best pr_auc)` when the seed completes, `none` when it raises. -/
def seedOutcome (env : Env) (s : Nat) : Option (ℚ × ℚ) :=
  match epochLoopT env s (List.range maxEpochs) none none 0 0 with
  | (.ok (bm, le), _) => some (bm.getD (env.evalTest s le))
  | (.error _, _) => none

/-! ### Basic facts about the epoch loop -/

theorem minDelta_pos : 0 < minDelta := by norm_num [minDelta]

theorem improves_none (lv : ℚ) : improves none lv = true := rfl

theorem improves_self (c : ℚ) : improves (some c) c = false := by
  have h : ¬ c < c - minDelta := by
    have := minDelta_pos
    intro hlt
    linarith
  simp [improves, h]

theorem epochLoopT_nil (env : Env) (s : Nat) (best : Option ℚ) (bm : Option (ℚ × ℚ))
    (pc le : Nat) : epochLoopT env s [] best bm pc le = (.ok (bm, le), []) := rfl

theorem epochLoopT_cons_prune (env : Env) (s e : Nat) (rest : List Nat)
    (best : Option ℚ) (bm : Option (ℚ × ℚ)) (pc le : Nat) (w lv : ℚ)
    (hTr : env.lossTrain s e = .ok w) (hV : env.lossVal s e = .ok lv)
    (hP : env.shouldPrune s e = true) :
    epochLoopT env s (e :: rest) best bm pc le = (.error .pruned, [(s, e, lv)]) := by
  simp [epochLoopT, hTr, hV, hP]

theorem epochLoopT_cons_improve (env : Env) (s e : Nat) (rest : List Nat)
    (best : Option ℚ) (bm : Option (ℚ × ℚ)) (pc le : Nat) (w lv : ℚ)
    (hTr : env.lossTrain s e = .ok w) (hV : env.lossVal s e = .ok lv)
    (hP : env.shouldPrune s e = false) (hI : improves best lv = true) :
    epochLoopT env s (e :: rest) best bm pc le =
      ((epochLoopT env s rest (some lv) (some (env.evalTest s e)) 0 e).1,
        (s, e, lv) :: (epochLoopT env s rest (some lv) (some (env.evalTest s e)) 0 e).2) := by
  simp [epochLoopT, hTr, hV, hP, hI]

theorem epochLoopT_cons_stop (env : Env) (s e : Nat) (rest : List Nat)
    (best : Option ℚ) (bm : Option (ℚ × ℚ)) (pc le : Nat) (w lv : ℚ)
    (hTr : env.lossTrain s e = .ok w) (hV : env.lossVal s e = .ok lv)
    (hP : env.shouldPrune s e = false) (hI : improves best lv = false)
    (hPc : patienceEpochs ≤ pc + 1) :
    epochLoopT env s (e :: rest) best bm pc le = (.ok (bm, e), [(s, e, lv)]) := by
  simp [epochLoopT, hTr, hV, hP, hI, hPc]

theorem epochLoopT_cons_wait (env : Env) (s e : Nat) (rest : List Nat)
    (best : Option ℚ) (bm : Option (ℚ × ℚ)) (pc le : Nat) (w lv : ℚ)
    (hTr : env.lossTrain s e = .ok w) (hV : env.lossVal s e = .ok lv)
    (hP : env.shouldPrune s e = false) (hI : improves best lv = false)
    (hPc : ¬ patienceEpochs ≤ pc + 1) :
    epochLoopT env s (e :: rest) best bm pc le =
      ((epochLoopT env s rest best bm (pc + 1) e).1,
        (s, e, lv) :: (epochLoopT env s rest best bm (pc + 1) e).2) := by
  simp [epochLoopT, hTr, hV, hP, hI, hPc]

/-! ### The exact behaviour of one seed's epoch loop on a loss sequence that
keeps improving up to epoch `k` and then plateaus (the spec's synthetic
early-stopping scenario).  Proved in two phases over `List.range'`
segments. -/

theorem plateau_phase (env : Env) (s : Nat) (f : Nat → ℚ) (k : Nat)
    (htr : ∀ e, e < 100 → ∃ v, env.lossTrain s e = .ok v)
    (hval : ∀ e, e < 100 → env.lossVal s e = .ok (f e))
    (hnp : ∀ e, e < 100 → env.shouldPrune s e = false)
    (hplat : ∀ e, e < 100 → k < e → ¬ f e < f k - minDelta) :
    ∀ (m : Nat), ∀ (a : Nat) (bm : Option (ℚ × ℚ)),
      a + m = 100 → k < a → a ≤ k + patienceEpochs →
      epochLoopT env s (List.range' a m) (some (f k)) bm (a - (k + 1)) (a - 1)
        = (.ok (bm, min (k + patienceEpochs) 99),
           (List.range' a (min (k + patienceEpochs + 1) 100 - a)).map
             (fun e => (s, e, f e))) := by
  have hpe : patienceEpochs = 10 := rfl
  intro m
  induction m with
  | zero =>
    intro a bm hsum hka hak
    have ha : a = 100 := by omega
    subst ha
    rw [show min (k + patienceEpochs) 99 = 99 by omega]
    rw [show min (k + patienceEpochs + 1) 100 - 100 = 0 by omega]
    simp [epochLoopT_nil]
  | succ m ih =>
    intro a bm hsum hka hak
    have ha100 : a < 100 := by omega
    obtain ⟨w, hw⟩ := htr a ha100
    have hI : improves (some (f k)) (f a) = false := by
      simp only [improves, decide_eq_false_iff_not]
      exact hplat a ha100 hka
    rw [List.range'_succ]
    by_cases hstop : a = k + patienceEpochs
    · rw [epochLoopT_cons_stop env s a _ _ bm _ _ w (f a) hw (hval a ha100)
        (hnp a ha100) hI (by omega)]
      rw [show min (k + patienceEpochs) 99 = a by omega]
      rw [show min (k + patienceEpochs + 1) 100 - a = 1 by omega]
      simp [List.range'_succ]
    · rw [epochLoopT_cons_wait env s a _ _ bm _ _ w (f a) hw (hval a ha100)
        (hnp a ha100) hI (by omega)]
      rw [show a - (k + 1) + 1 = (a + 1) - (k + 1) by omega]
      have IH := ih (a + 1) bm (by omega) (by omega) (by omega)
      simp only [Nat.add_sub_cancel] at IH
      rw [IH]
      rw [show min (k + patienceEpochs + 1) 100 - a
            = (min (k + patienceEpochs + 1) 100 - (a + 1)) + 1 by omega]
      rw [List.range'_succ]
      simp

theorem improving_phase (env : Env) (s : Nat) (f : Nat → ℚ) (k : Nat)
    (hk : k < 100)
    (htr : ∀ e, e < 100 → ∃ v, env.lossTrain s e = .ok v)
    (hval : ∀ e, e < 100 → env.lossVal s e = .ok (f e))
    (hnp : ∀ e, e < 100 → env.shouldPrune s e = false)
    (hdec : ∀ e, e < k → f (e + 1) < f e - minDelta)
    (hplat : ∀ e, e < 100 → k < e → ¬ f e < f k - minDelta) :
    ∀ (m : Nat), ∀ (a : Nat) (best : Option ℚ) (bm : Option (ℚ × ℚ)) (le : Nat),
      a + m = 100 → a ≤ k → improves best (f a) = true →
      epochLoopT env s (List.range' a m) best bm 0 le
        = (.ok (some (env.evalTest s k), min (k + patienceEpochs) 99),
           (List.range' a (min (k + patienceEpochs + 1) 100 - a)).map
             (fun e => (s, e, f e))) := by
  have hpe : patienceEpochs = 10 := rfl
  intro m
  induction m with
  | zero =>
    intro a best bm le hsum hak himp
    omega
  | succ m ih =>
    intro a best bm le hsum hak himp
    have ha100 : a < 100 := by omega
    obtain ⟨w, hw⟩ := htr a ha100
    rw [List.range'_succ]
    rw [epochLoopT_cons_improve env s a _ best bm _ le w (f a) hw (hval a ha100)
      (hnp a ha100) himp]
    by_cases hlast : a = k
    · subst hlast
      have HP := plateau_phase env s f a htr hval hnp hplat m (a + 1)
        (some (env.evalTest s a)) (by omega) (by omega) (by omega)
      simp only [Nat.add_sub_cancel] at HP
      rw [show (a + 1) - (a + 1) = 0 by omega] at HP
      rw [HP]
      rw [show min (a + patienceEpochs + 1) 100 - a
            = (min (a + patienceEpochs + 1) 100 - (a + 1)) + 1 by
          have hpe : patienceEpochs = 10 := rfl
          omega]
      rw [List.range'_succ]
      simp
    · have himp' : improves (some (f a)) (f (a + 1)) = true := by
        simp only [improves, decide_eq_true_eq]
        exact hdec a (by omega)
      have IH := ih (a + 1) (some (f a)) (some (env.evalTest s a)) a
        (by omega) (by omega) himp'
      rw [IH]
      rw [show min (k + patienceEpochs + 1) 100 - a
            = (min (k + patienceEpochs + 1) 100 - (a + 1)) + 1 by
          have hpe : patienceEpochs = 10 := rfl
          omega]
      rw [List.range'_succ]
      simp

/-- The full behaviour of one seed's epoch loop (lines 83-106, entered with
`best_val_loss = inf`, `best_metrics = None`, `patience_counter = 0`) on a
validation-loss sequence `f` that improves by more than `min_delta` at every
epoch up to `k` and never improves on `f k` afterwards: the loop stops at
epoch `min (k+10) 99`, the recorded snapshot is the test evaluation made at
epoch `k`, and exactly `min (k+11) 100` epochs are processed. -/
theorem seed_loop_run (env : Env) (s : Nat) (f : Nat → ℚ) (k : Nat)
    (hk : k < 100)
    (htr : ∀ e, e < 100 → ∃ v, env.lossTrain s e = .ok v)
    (hval : ∀ e, e < 100 → env.lossVal s e = .ok (f e))
    (hnp : ∀ e, e < 100 → env.shouldPrune s e = false)
    (hdec : ∀ e, e < k → f (e + 1) < f e - minDelta)
    (hplat : ∀ e, e < 100 → k < e → ¬ f e < f k - minDelta) :
    epochLoopT env s (List.range maxEpochs) none none 0 0
      = (.ok (some (env.evalTest s k), min (k + patienceEpochs) 99),
         (List.range' 0 (min (k + patienceEpochs + 1) 100)).map
           (fun e => (s, e, f e))) := by
  rw [show List.range maxEpochs = List.range' 0 100 from List.range_eq_range' 100]
  have H := improving_phase env s f k hk htr hval hnp hdec hplat 100 0 none none 0
    rfl (by omega) (improves_none (f 0))
  rw [H]
  simp

/-! ### Unfolding lemmas for the seed loop and concrete test environments -/

theorem runSeedsT_nil (env : Env) (aucs praucs : List ℚ) :
    runSeedsT env [] aucs praucs = (.ok (aucs, praucs), []) := rfl

theorem runSeedsT_cons_ok (env : Env) (s : Nat) (rest : List Nat)
    (aucs praucs : List ℚ) (bm : Option (ℚ × ℚ)) (le : Nat) (t : List (Nat × Nat × ℚ))
    (h : epochLoopT env s (List.range maxEpochs) none none 0 0 = (.ok (bm, le), t)) :
    runSeedsT env (s :: rest) aucs praucs =
      ((runSeedsT env rest (aucs ++ [(bm.getD (env.evalTest s le)).1])
          (praucs ++ [(bm.getD (env.evalTest s le)).2])).1,
        t ++ (runSeedsT env rest (aucs ++ [(bm.getD (env.evalTest s le)).1])
          (praucs ++ [(bm.getD (env.evalTest s le)).2])).2) := by
  simp [runSeedsT, h]

theorem runSeedsT_cons_err (env : Env) (s : Nat) (rest : List Nat)
    (aucs praucs : List ℚ) (ex : TrialExc) (t : List (Nat × Nat × ℚ))
    (h : epochLoopT env s (List.range maxEpochs) none none 0 0 = (.error ex, t)) :
    runSeedsT env (s :: rest) aucs praucs = (.error ex, t) := by
  simp [runSeedsT, h]

/-- A seed loop whose validation loss is the constant `c` improves only at
epoch 0 and early-stops at epoch 10, keeping the epoch-0 test snapshot. -/
theorem const_seed_run (env : Env) (s : Nat) (c : ℚ)
    (htr : ∀ e, e < 100 → ∃ v, env.lossTrain s e = .ok v)
    (hval : ∀ e, e < 100 → env.lossVal s e = .ok c)
    (hnp : ∀ e, e < 100 → env.shouldPrune s e = false) :
    epochLoopT env s (List.range maxEpochs) none none 0 0
      = (.ok (some (env.evalTest s 0), 10),
         (List.range' 0 11).map (fun e => (s, e, c))) := by
  have H := seed_loop_run env s (fun _ => c) 0 (by omega) htr hval hnp
    (fun e he => absurd he (by omega))
    (fun e _ _ => by
      have := minDelta_pos
      intro hlt
      linarith)
  rw [H]
  norm_num [patienceEpochs]

/-- A fixed hyperparameter configuration drawn from the line 26-35 search
spaces, used for the concrete runs below. -/
def hpC : Hyperparams :=
  { lr := 1/100, weight_decay := 1/1000, num_embedding_type := "L", n_heads := 8,
    d_embedding := 32, n_layers := 3, attention_dropout := 1/10, ffn_dropout := 1/10,
    residual_dropout := 1/20, batch_size := 64 }

/-- Collaborators for a trial that completes: constant losses, never prunes,
constant test metrics `(1/2, 1/3)`. -/
def envOk : Env :=
  { lossTrain := fun _ _ => .ok 1
    lossVal := fun _ _ => .ok (1/2)
    shouldPrune := fun _ _ => false
    evalTest := fun _ _ => (1/2, 1/3)
    stdFn := fun _ => 0 }

/-- The trace one completed seed of `envOk` leaves: epochs 0..10. -/
def constTrace (s : Nat) (c : ℚ) : List (Nat × Nat × ℚ) :=
  (List.range' 0 11).map (fun e => (s, e, c))

theorem envOk_seed (s : Nat) :
    epochLoopT envOk s (List.range maxEpochs) none none 0 0
      = (.ok (some (1/2, 1/3), 10), constTrace s (1/2)) :=
  const_seed_run envOk s (1/2) (fun _ _ => ⟨1, rfl⟩) (fun _ _ => rfl) (fun _ _ => rfl)

/-- The `DetailedResult` the `envOk` trial attaches. -/
def dOk : DetailedResult :=
  { hyperparams := hpC
    aucs_per_seed := [1/2, 1/2, 1/2]
    pr_aucs_per_seed := [1/3, 1/3, 1/3]
    mean_auc := 1/2
    std_auc := 0
    mean_pr_auc := 1/3
    seeds := seedsList }

theorem npMean_half : npMean [1/2, 1/2, 1/2] = 1/2 := by
  norm_num [npMean]

theorem npMean_third : npMean [1/3, 1/3, 1/3] = 1/3 := by
  norm_num [npMean]

theorem envOk_objective :
    objectiveT envOk hpC
      = (.ok (1/2, dOk), constTrace 0 (1/2) ++ constTrace 1 (1/2) ++ constTrace 2 (1/2)) := by
  rw [objectiveT, seedsList]
  rw [runSeedsT_cons_ok envOk 0 _ _ _ _ _ _ (envOk_seed 0)]
  rw [runSeedsT_cons_ok envOk 1 _ _ _ _ _ _ (envOk_seed 1)]
  rw [runSeedsT_cons_ok envOk 2 _ _ _ _ _ _ (envOk_seed 2)]
  rw [runSeedsT_nil]
  simp only [Option.getD_some]
  norm_num [dOk, npMean_half, npMean_third, npMean, envOk, seedsList]

theorem epochLoopT_cons_errTrain (env : Env) (s e : Nat) (rest : List Nat)
    (best : Option ℚ) (bm : Option (ℚ × ℚ)) (pc le : Nat) (m : String)
    (hTr : env.lossTrain s e = .error m) :
    epochLoopT env s (e :: rest) best bm pc le = (.error (.error m), []) := by
  simp [epochLoopT, hTr]

theorem epochLoopT_cons_errVal (env : Env) (s e : Nat) (rest : List Nat)
    (best : Option ℚ) (bm : Option (ℚ × ℚ)) (pc le : Nat) (w : ℚ) (m : String)
    (hTr : env.lossTrain s e = .ok w) (hV : env.lossVal s e = .error m) :
    epochLoopT env s (e :: rest) best bm pc le = (.error (.error m), []) := by
  simp [epochLoopT, hTr, hV]

/-- Once `best_metrics` holds a snapshot it is only ever replaced by another
snapshot, so a successful loop ends with a snapshot or with its initial
`bm`. -/
theorem epochLoopT_bm_some (env : Env) (s : Nat) :
    ∀ (E : List Nat) (best : Option ℚ) (bm : Option (ℚ × ℚ)) (pc le : Nat)
      (r : Option (ℚ × ℚ) × Nat) (t : List (Nat × Nat × ℚ)),
      epochLoopT env s E best bm pc le = (.ok r, t) →
      r.1.isSome = true ∨ r.1 = bm := by
  intro E
  induction E with
  | nil =>
    intro best bm pc le r t h
    rw [epochLoopT_nil] at h
    obtain ⟨h1, _⟩ := Prod.mk.injEq .. ▸ h
    obtain ⟨rfl⟩ := Except.ok.injEq .. ▸ h1
    right
    rfl
  | cons e rest ih =>
    intro best bm pc le r t h
    rcases hTr : env.lossTrain s e with m | w
    · rw [epochLoopT_cons_errTrain env s e rest best bm pc le m hTr] at h
      simp at h
    · rcases hV : env.lossVal s e with m | lv
      · rw [epochLoopT_cons_errVal env s e rest best bm pc le w m hTr hV] at h
        simp at h
      · rcases hP : env.shouldPrune s e with _ | _
        · rcases hI : improves best lv with _ | _
          · by_cases hPc : patienceEpochs ≤ pc + 1
            · rw [epochLoopT_cons_stop env s e rest best bm pc le w lv hTr hV hP hI hPc] at h
              obtain ⟨h1, _⟩ := Prod.mk.injEq .. ▸ h
              obtain ⟨rfl⟩ := Except.ok.injEq .. ▸ h1
              right
              rfl
            · rw [epochLoopT_cons_wait env s e rest best bm pc le w lv hTr hV hP hI hPc] at h
              obtain ⟨h1, _⟩ := Prod.mk.injEq .. ▸ h
              rcases hrec : epochLoopT env s rest best bm (pc + 1) e with ⟨res, t'⟩
              rw [hrec] at h1
              exact ih best bm (pc + 1) e r t'
                (by rw [hrec, show res = Except.ok r from h1])
          · rw [epochLoopT_cons_improve env s e rest best bm pc le w lv hTr hV hP hI] at h
            obtain ⟨h1, _⟩ := Prod.mk.injEq .. ▸ h
            rcases hrec : epochLoopT env s rest (some lv) (some (env.evalTest s e)) 0 e
              with ⟨res, t'⟩
            rw [hrec] at h1
            rcases ih (some lv) (some (env.evalTest s e)) 0 e r t'
                (by rw [hrec, show res = Except.ok r from h1]) with
              hs | hbm
            · exact Or.inl hs
            · exact Or.inl (by rw [hbm]; rfl)
        · rw [epochLoopT_cons_prune env s e rest best bm pc le w lv hTr hV hP] at h
          simp at h

/-- A successful `runSeedsT` yields one completed outcome per listed seed, with
the collected auc and pr-auc lists being exactly the per-seed outcome
components appended in seed order. -/
theorem runSeedsT_ok_outcomes (env : Env) :
    ∀ (ss : List Nat) (A P aucs praucs : List ℚ),
      (runSeedsT env ss A P).1 = .ok (aucs, praucs) →
      ∃ ms : List (ℚ × ℚ), ss.map (seedOutcome env) = ms.map some ∧
        aucs = A ++ ms.map Prod.fst ∧ praucs = P ++ ms.map Prod.snd := by
  intro ss
  induction ss with
  | nil =>
    intro A P aucs praucs h
    rw [runSeedsT_nil] at h
    obtain ⟨rfl, rfl⟩ := Prod.mk.injEq .. ▸ Except.ok.injEq .. ▸ h
    exact ⟨[], by simp, by simp, by simp⟩
  | cons s rest ih =>
    intro A P aucs praucs h
    rcases hep : epochLoopT env s (List.range maxEpochs) none none 0 0 with ⟨res, t1⟩
    cases res with
    | error ex =>
      rw [runSeedsT_cons_err env s rest A P ex t1 hep] at h
      simp at h
    | ok p =>
      obtain ⟨bm, le⟩ := p
      rw [runSeedsT_cons_ok env s rest A P bm le t1 hep] at h
      obtain ⟨ms, hmap, ha, hp⟩ := ih _ _ aucs praucs h
      refine ⟨bm.getD (env.evalTest s le) :: ms, ?_, ?_, ?_⟩
      · simp only [List.map_cons, seedOutcome, hep, hmap]
      · simp [ha, List.append_assoc]
      · simp [hp, List.append_assoc]

/-- Claim C1: for every trial that completes all seeds without pruning or
failure, the scalar objective value returned equals the arithmetic mean of the
per-seed best test AUCs, and the attached `DetailedResult` stores those same
per-seed AUCs with their mean, their (numpy) standard deviation, and the
per-seed PR-AUCs with their mean, together with the sampled
hyperparameters. -/
theorem objective_value_is_mean_auc (env : Env) (hp : Hyperparams) (v : ℚ)
    (d : DetailedResult) (h : (objectiveT env hp).1 = .ok (v, d)) :
    v = npMean d.aucs_per_seed ∧
    d.mean_auc = npMean d.aucs_per_seed ∧
    d.std_auc = env.stdFn d.aucs_per_seed ∧
    d.mean_pr_auc = npMean d.pr_aucs_per_seed ∧
    d.hyperparams = hp := by
  unfold objectiveT at h
  rcases hr : runSeedsT env seedsList [] [] with ⟨res, t⟩
  rw [hr] at h
  cases res with
  | error ex => simp at h
  | ok p =>
    obtain ⟨aucs, praucs⟩ := p
    simp only at h
    obtain ⟨hv, hd⟩ := Prod.mk.injEq .. ▸ Except.ok.injEq .. ▸ h
    subst hv
    rw [← hd]
    exact ⟨rfl, rfl, rfl, rfl, rfl⟩

/-- Witness for C1: the `envOk` trial completes with objective `1/2` and
detail `dOk`, and the theorem's conclusions hold there. -/
theorem objective_value_is_mean_auc_witness :
    (1/2 : ℚ) = npMean dOk.aucs_per_seed ∧
    dOk.mean_auc = npMean dOk.aucs_per_seed ∧
    dOk.std_auc = envOk.stdFn dOk.aucs_per_seed ∧
    dOk.mean_pr_auc = npMean dOk.pr_aucs_per_seed ∧
    dOk.hyperparams = hpC :=
  objective_value_is_mean_auc envOk hpC (1/2) dOk (by rw [envOk_objective])

/-- Claim C10: a completed trial's DetailedResult has exactly one AUC and one
PR-AUC entry per configured seed (three for the fixed list [0, 1, 2]),
appended in seed order — position `i` of each list is the outcome of seed
`seedsList[i]`'s loop — and its `seeds` field is the configured seed list. -/
theorem detailed_result_per_seed (env : Env) (hp : Hyperparams) (v : ℚ)
    (d : DetailedResult) (h : (objectiveT env hp).1 = .ok (v, d)) :
    d.seeds = [0, 1, 2] ∧
    d.aucs_per_seed.length = 3 ∧
    d.pr_aucs_per_seed.length = 3 ∧
    seedsList.map (seedOutcome env) = (d.aucs_per_seed.zip d.pr_aucs_per_seed).map some := by
  unfold objectiveT at h
  rcases hr : runSeedsT env seedsList [] [] with ⟨res, t⟩
  rw [hr] at h
  cases res with
  | error ex => simp at h
  | ok p =>
    obtain ⟨aucs, praucs⟩ := p
    simp only at h
    obtain ⟨hv, hd⟩ := Prod.mk.injEq .. ▸ Except.ok.injEq .. ▸ h
    obtain ⟨ms, hmap, ha, hp'⟩ := runSeedsT_ok_outcomes env seedsList [] [] aucs praucs
      (by rw [hr])
    simp only [List.nil_append] at ha hp'
    have hlen : ms.length = 3 := by
      have := congrArg List.length hmap
      simpa [seedsList] using this.symm
    refine ⟨by rw [← hd]; rfl, ?_, ?_, ?_⟩
    · rw [← hd]
      simp [ha, hlen]
    · rw [← hd]
      simp [hp', hlen]
    · rw [← hd]
      simp only [ha, hp', List.zip_map']
      rw [hmap]
      simp

/-- Witness for C10: the completed `envOk` trial has three per-seed entries,
in seed order, and `seeds = [0, 1, 2]`. -/
theorem detailed_result_per_seed_witness :
    dOk.seeds = [0, 1, 2] ∧
    dOk.aucs_per_seed.length = 3 ∧
    dOk.pr_aucs_per_seed.length = 3 ∧
    seedsList.map (seedOutcome envOk) = (dOk.aucs_per_seed.zip dOk.pr_aucs_per_seed).map some :=
  detailed_result_per_seed envOk hpC (1/2) dOk (by rw [envOk_objective])

/-- Claim C6: the line 108-109 fallback is unreachable in a seed loop that
completes: with `best_val_loss` initialized to infinity every first-epoch
loss improves (improves `none` is identically `true`), so any successful run
of the loop ends with a recorded snapshot (`best_metrics` is `some`). -/
theorem fallback_unreachable (env : Env) (s : Nat) (bm : Option (ℚ × ℚ)) (le : Nat)
    (h : (epochLoopT env s (List.range maxEpochs) none none 0 0).1 = .ok (bm, le)) :
    bm.isSome = true ∧ ∀ lv : ℚ, improves none lv = true := by
  refine ⟨?_, fun lv => rfl⟩
  rw [show List.range maxEpochs = List.range' 0 100 from List.range_eq_range' 100] at h
  rw [show List.range' 0 100 = 0 :: List.range' 1 99 from List.range'_succ 0 99 1] at h
  rcases hTr : env.lossTrain s 0 with m | w
  · rw [epochLoopT_cons_errTrain env s 0 _ none none 0 0 m hTr] at h
    simp at h
  · rcases hV : env.lossVal s 0 with m | lv
    · rw [epochLoopT_cons_errVal env s 0 _ none none 0 0 w m hTr hV] at h
      simp at h
    · rcases hP : env.shouldPrune s 0 with _ | _
      · rw [epochLoopT_cons_improve env s 0 _ none none 0 0 w lv hTr hV hP
          (improves_none lv)] at h
        rcases hrec : epochLoopT env s (List.range' 1 99) (some lv)
            (some (env.evalTest s 0)) 0 0 with ⟨res, t'⟩
        rw [hrec] at h
        rcases epochLoopT_bm_some env s (List.range' 1 99) (some lv)
            (some (env.evalTest s 0)) 0 0 (bm, le) t'
            (by rw [hrec, show res = Except.ok (bm, le) from h]) with hs | hbm
        · exact hs
        · rw [show bm = (bm, le).1 from rfl, hbm]
          rfl
      · rw [epochLoopT_cons_prune env s 0 _ none none 0 0 w lv hTr hV hP] at h
        simp at h

/-- Witness for C6: the completed `envOk` seed loop ends with a snapshot. -/
theorem fallback_unreachable_witness :
    (some ((1 : ℚ)/2, (1 : ℚ)/3)).isSome = true :=
  (fallback_unreachable envOk 0 (some (1/2, 1/3)) 10
    (by rw [envOk_seed 0])).1

/-- Claim C9: the embedding-type tag is sampled from
{L, LR, LR-LR, P, P-LR, P-LR-LR}, which is disjoint from the label-aware set
{T, T-L, T-LR, T-LR-LR} tested at line 58, so the `y_train` argument passed
to `get_num_embedding` is always `None`. -/
theorem labels_argument_none {α : Type} (y : α) (tag : String)
    (h : tag ∈ embeddingTypeChoices) :
    labelAwareTags.contains tag = false ∧ yTrainArgument tag y = none := by
  have hcases : tag = "L" ∨ tag = "LR" ∨ tag = "LR-LR" ∨ tag = "P" ∨ tag = "P-LR" ∨
      tag = "P-LR-LR" := by
    simpa [embeddingTypeChoices] using h
  have hc : labelAwareTags.contains tag = false := by
    rcases hcases with rfl | rfl | rfl | rfl | rfl | rfl <;> rfl
  exact ⟨hc, by rcases hcases with rfl | rfl | rfl | rfl | rfl | rfl <;> rfl⟩

/-- Witness for C9: the tag "L" is a sampler choice and yields a `None`
labels argument. -/
theorem labels_argument_none_witness :
    "L" ∈ embeddingTypeChoices ∧
    (labelAwareTags.contains "L" = false ∧ yTrainArgument "L" (0 : ℚ) = none) :=
  ⟨by simp [embeddingTypeChoices], labels_argument_none (0 : ℚ) "L"
    (by simp [embeddingTypeChoices])⟩

/-- The epoch loop processes at most one step per listed epoch. -/
theorem epochLoopT_length_le (env : Env) (s : Nat) :
    ∀ (E : List Nat) (best : Option ℚ) (bm : Option (ℚ × ℚ)) (pc le : Nat),
      ((epochLoopT env s E best bm pc le).2).length ≤ E.length := by
  intro E
  induction E with
  | nil => intro best bm pc le; rw [epochLoopT_nil]; simp
  | cons e rest ih =>
    intro best bm pc le
    rcases hTr : env.lossTrain s e with m | w
    · rw [epochLoopT_cons_errTrain env s e rest best bm pc le m hTr]
      simp
    · rcases hV : env.lossVal s e with m | lv
      · rw [epochLoopT_cons_errVal env s e rest best bm pc le w m hTr hV]
        simp
      · rcases hP : env.shouldPrune s e with _ | _
        · rcases hI : improves best lv with _ | _
          · by_cases hPc : patienceEpochs ≤ pc + 1
            · rw [epochLoopT_cons_stop env s e rest best bm pc le w lv hTr hV hP hI hPc]
              simp
            · rw [epochLoopT_cons_wait env s e rest best bm pc le w lv hTr hV hP hI hPc]
              simpa using ih best bm (pc + 1) e
          · rw [epochLoopT_cons_improve env s e rest best bm pc le w lv hTr hV hP hI]
            simpa using ih (some lv) (some (env.evalTest s e)) 0 e
        · rw [epochLoopT_cons_prune env s e rest best bm pc le w lv hTr hV hP]
          simp

/-- Claim C2: the per-seed loop runs at most 100 epochs; an improvement of
more than `min_delta` over the best-so-far resets the counter and records the
test snapshot, otherwise the counter grows and the loop stops when it reaches
10.  For a validation-loss sequence that keeps improving up to epoch `k` and
never improves again, the loop stops exactly at epoch `min (k+10) 99` —
`k + 10`, or the 100-epoch cap — having processed `min (k+11) 100` epochs,
and the recorded snapshot is the test evaluation computed at epoch `k`, not
at loop exit. -/
theorem early_stopping_policy (env : Env) (s : Nat) (f : Nat → ℚ) (k : Nat)
    (hk : k < 100)
    (htr : ∀ e, e < 100 → ∃ v, env.lossTrain s e = .ok v)
    (hval : ∀ e, e < 100 → env.lossVal s e = .ok (f e))
    (hnp : ∀ e, e < 100 → env.shouldPrune s e = false)
    (hdec : ∀ e, e < k → f (e + 1) < f e - minDelta)
    (hplat : ∀ e, e < 100 → k < e → ¬ f e < f k - minDelta) :
    (epochLoopT env s (List.range maxEpochs) none none 0 0).1
        = .ok (some (env.evalTest s k), min (k + patienceEpochs) 99) ∧
    ((epochLoopT env s (List.range maxEpochs) none none 0 0).2).length
        = min (k + patienceEpochs + 1) 100 ∧
    (∀ (env' : Env) (s' : Nat) (best : Option ℚ) (bm : Option (ℚ × ℚ)) (pc le : Nat),
      ((epochLoopT env' s' (List.range maxEpochs) best bm pc le).2).length ≤ maxEpochs) := by
  rw [seed_loop_run env s f k hk htr hval hnp hdec hplat]
  refine ⟨rfl, by simp, ?_⟩
  intro env' s' best bm pc le
  have := epochLoopT_length_le env' s' (List.range maxEpochs) best bm pc le
  simpa using this

/-- The loss sequence for the C2 witness: strictly improving for epochs 0-2,
then flat. -/
def f2 : Nat → ℚ := fun e => if e ≤ 2 then 1 - (e : ℚ) / 100 else 49/50

/-- Collaborators whose validation loss follows `f2` (last improvement at
epoch 2) and whose test metrics identify the epoch they were computed at. -/
def envC2 : Env :=
  { lossTrain := fun _ _ => .ok 0
    lossVal := fun _ e => .ok (f2 e)
    shouldPrune := fun _ _ => false
    evalTest := fun s e => ((e : ℚ), (s : ℚ))
    stdFn := fun _ => 0 }

/-- Witness for C2: on `envC2`, seed 0 stops exactly at epoch 2 + 10 = 12
after 13 processed epochs, and the snapshot is the epoch-2 evaluation. -/
theorem early_stopping_policy_witness :
    (epochLoopT envC2 0 (List.range maxEpochs) none none 0 0).1
        = .ok (some (envC2.evalTest 0 2), min (2 + patienceEpochs) 99) ∧
    ((epochLoopT envC2 0 (List.range maxEpochs) none none 0 0).2).length
        = min (2 + patienceEpochs + 1) 100 := by
  have H := early_stopping_policy envC2 0 f2 2 (by omega)
    (fun _ _ => ⟨0, rfl⟩) (fun _ _ => rfl) (fun _ _ => rfl)
    (by
      intro e he
      interval_cases e <;> norm_num [f2, minDelta])
    (by
      intro e _ h2
      have hfe : f2 e = 49/50 := by
        simp only [f2]
        rw [if_neg (by omega)]
      have hf2 : f2 2 = 49/50 := by norm_num [f2]
      rw [hfe, hf2, minDelta]
      norm_num)
  exact ⟨H.1, H.2.1⟩

/-- Every trace entry of the epoch loop records this seed and, as reported
value, the validation loss the `val` call returned at that epoch. -/
theorem epochLoopT_trace_entries (env : Env) (s : Nat) :
    ∀ (E : List Nat) (best : Option ℚ) (bm : Option (ℚ × ℚ)) (pc le : Nat),
      ∀ x ∈ (epochLoopT env s E best bm pc le).2,
        x.1 = s ∧ env.lossVal s x.2.1 = .ok x.2.2 := by
  intro E
  induction E with
  | nil =>
    intro best bm pc le x hx
    rw [epochLoopT_nil] at hx
    simp at hx
  | cons e rest ih =>
    intro best bm pc le x hx
    rcases hTr : env.lossTrain s e with m | w
    · rw [epochLoopT_cons_errTrain env s e rest best bm pc le m hTr] at hx
      simp at hx
    · rcases hV : env.lossVal s e with m | lv
      · rw [epochLoopT_cons_errVal env s e rest best bm pc le w m hTr hV] at hx
        simp at hx
      · rcases hP : env.shouldPrune s e with _ | _
        · rcases hI : improves best lv with _ | _
          · by_cases hPc : patienceEpochs ≤ pc + 1
            · rw [epochLoopT_cons_stop env s e rest best bm pc le w lv hTr hV hP hI hPc] at hx
              simp only [List.mem_singleton] at hx
              subst hx
              exact ⟨rfl, hV⟩
            · rw [epochLoopT_cons_wait env s e rest best bm pc le w lv hTr hV hP hI hPc] at hx
              rcases List.mem_cons.mp hx with hx | hx
              · subst hx
                exact ⟨rfl, hV⟩
              · exact ih best bm (pc + 1) e x hx
          · rw [epochLoopT_cons_improve env s e rest best bm pc le w lv hTr hV hP hI] at hx
            rcases List.mem_cons.mp hx with hx | hx
            · subst hx
              exact ⟨rfl, hV⟩
            · exact ih (some lv) (some (env.evalTest s e)) 0 e x hx
        · rw [epochLoopT_cons_prune env s e rest best bm pc le w lv hTr hV hP] at hx
          simp only [List.mem_singleton] at hx
          subst hx
          exact ⟨rfl, hV⟩

/-- A successful run of the epoch loop over a nonempty epoch list leaves a
trace starting with the first epoch's report. -/
theorem epochLoopT_cons_ok_head (env : Env) (s e : Nat) (rest : List Nat)
    (best : Option ℚ) (bm : Option (ℚ × ℚ)) (pc le : Nat)
    (r : Option (ℚ × ℚ) × Nat) (t : List (Nat × Nat × ℚ))
    (h : epochLoopT env s (e :: rest) best bm pc le = (.ok r, t)) :
    ∃ lv t', env.lossVal s e = .ok lv ∧ t = (s, e, lv) :: t' := by
  rcases hTr : env.lossTrain s e with m | w
  · rw [epochLoopT_cons_errTrain env s e rest best bm pc le m hTr] at h
    simp at h
  · rcases hV : env.lossVal s e with m | lv
    · rw [epochLoopT_cons_errVal env s e rest best bm pc le w m hTr hV] at h
      simp at h
    · rcases hP : env.shouldPrune s e with _ | _
      · rcases hI : improves best lv with _ | _
        · by_cases hPc : patienceEpochs ≤ pc + 1
          · rw [epochLoopT_cons_stop env s e rest best bm pc le w lv hTr hV hP hI hPc] at h
            obtain ⟨-, h2⟩ := Prod.mk.injEq .. ▸ h
            exact ⟨lv, [], rfl, h2.symm⟩
          · rw [epochLoopT_cons_wait env s e rest best bm pc le w lv hTr hV hP hI hPc] at h
            obtain ⟨-, h2⟩ := Prod.mk.injEq .. ▸ h
            exact ⟨lv, _, rfl, h2.symm⟩
        · rw [epochLoopT_cons_improve env s e rest best bm pc le w lv hTr hV hP hI] at h
          obtain ⟨-, h2⟩ := Prod.mk.injEq .. ▸ h
          exact ⟨lv, _, rfl, h2.symm⟩
      · rw [epochLoopT_cons_prune env s e rest best bm pc le w lv hTr hV hP] at h
        simp at h

/-- Splitting a successful multi-seed run at its first seed. -/
theorem runSeedsT_ok_decomp (env : Env) (s : Nat) (rest : List Nat)
    (A P aucs praucs : List ℚ)
    (h : (runSeedsT env (s :: rest) A P).1 = .ok (aucs, praucs)) :
    ∃ bm le t1,
      epochLoopT env s (List.range maxEpochs) none none 0 0 = (.ok (bm, le), t1) ∧
      (runSeedsT env (s :: rest) A P).2
        = t1 ++ (runSeedsT env rest (A ++ [(bm.getD (env.evalTest s le)).1])
            (P ++ [(bm.getD (env.evalTest s le)).2])).2 ∧
      (runSeedsT env rest (A ++ [(bm.getD (env.evalTest s le)).1])
            (P ++ [(bm.getD (env.evalTest s le)).2])).1 = .ok (aucs, praucs) := by
  rcases hep : epochLoopT env s (List.range maxEpochs) none none 0 0 with ⟨res, t1⟩
  cases res with
  | error ex =>
    rw [runSeedsT_cons_err env s rest A P ex t1 hep] at h
    simp at h
  | ok p =>
    obtain ⟨bm, le⟩ := p
    have hc := runSeedsT_cons_ok env s rest A P bm le t1 hep
    refine ⟨bm, le, t1, rfl, ?_, ?_⟩
    · rw [hc]
    · rw [hc] at h
      exact h

/-- The trial's trace is the seed-loop trace. -/
theorem objectiveT_snd (env : Env) (hp : Hyperparams) :
    (objectiveT env hp).2 = (runSeedsT env seedsList [] []).2 := by
  unfold objectiveT
  rcases hr : runSeedsT env seedsList [] [] with ⟨res, t⟩
  cases res with
  | error ex => rfl
  | ok p =>
    obtain ⟨aucs, praucs⟩ := p
    rfl

theorem objectiveT_ok_runSeeds (env : Env) (hp : Hyperparams)
    (h : isOkB (objectiveT env hp).1 = true) :
    ∃ aucs praucs, (runSeedsT env seedsList [] []).1 = .ok (aucs, praucs) := by
  unfold objectiveT at h
  rcases hr : runSeedsT env seedsList [] [] with ⟨res, t⟩
  rw [hr] at h
  cases res with
  | error ex => simp [isOkB] at h
  | ok p =>
    obtain ⟨aucs, praucs⟩ := p
    exact ⟨aucs, praucs, rfl⟩

/-- Every trace entry of a multi-seed run reports that entry's validation
loss. -/
theorem runSeedsT_trace_entries (env : Env) :
    ∀ (ss : List Nat) (A P : List ℚ),
      ∀ x ∈ (runSeedsT env ss A P).2, env.lossVal x.1 x.2.1 = .ok x.2.2 := by
  intro ss
  induction ss with
  | nil =>
    intro A P x hx
    rw [runSeedsT_nil] at hx
    simp at hx
  | cons s rest ih =>
    intro A P x hx
    rcases hep : epochLoopT env s (List.range maxEpochs) none none 0 0 with ⟨res, t1⟩
    cases res with
    | error ex =>
      rw [runSeedsT_cons_err env s rest A P ex t1 hep] at hx
      obtain ⟨hx1, hx2⟩ := epochLoopT_trace_entries env s (List.range maxEpochs)
        none none 0 0 x (by rw [hep]; exact hx)
      rw [hx1]
      exact hx2
    | ok p =>
      obtain ⟨bm, le⟩ := p
      rw [runSeedsT_cons_ok env s rest A P bm le t1 hep] at hx
      rcases List.mem_append.mp hx with hx | hx
      · obtain ⟨hx1, hx2⟩ := epochLoopT_trace_entries env s (List.range maxEpochs)
          none none 0 0 x (by rw [hep]; exact hx)
        rw [hx1]
        exact hx2
      · exact ih _ _ x hx

/-- Claim C3, amended: at every epoch of every seed the value passed to
`trial.report` is that epoch's validation loss, but the step it is reported
at is the epoch index alone — the seed index is not combined into it — so in
any completed trial the reported steps repeat across seeds (epoch 0 is
reported once per seed) instead of being distinct. -/
theorem trial_report_steps (env : Env) (hp : Hyperparams)
    (h : isOkB (objectiveT env hp).1 = true) :
    (∀ x ∈ (objectiveT env hp).2, env.lossVal x.1 x.2.1 = .ok x.2.2) ∧
    ¬ ((reportsOf env hp).map Prod.snd).Nodup := by
  constructor
  · intro x hx
    rw [objectiveT_snd] at hx
    exact runSeedsT_trace_entries env seedsList [] [] x hx
  · obtain ⟨aucs, praucs, hok⟩ := objectiveT_ok_runSeeds env hp h
    rw [show seedsList = 0 :: [1, 2] from rfl] at hok
    obtain ⟨bm0, le0, t0, hep0, htr0, hok1⟩ :=
      runSeedsT_ok_decomp env 0 [1, 2] [] [] aucs praucs hok
    obtain ⟨bm1, le1, t1, hep1, htr1, hok2⟩ :=
      runSeedsT_ok_decomp env 1 [2] _ _ aucs praucs hok1
    have hr100 : List.range maxEpochs = 0 :: List.range' 1 99 := by
      rw [show List.range maxEpochs = List.range' 0 100 from List.range_eq_range' 100]
      exact List.range'_succ 0 99 1
    rw [hr100] at hep0 hep1
    obtain ⟨lv0, t0', hV0, ht0⟩ :=
      epochLoopT_cons_ok_head env 0 0 _ none none 0 0 _ _ hep0
    obtain ⟨lv1, t1', hV1, ht1⟩ :=
      epochLoopT_cons_ok_head env 1 0 _ none none 0 0 _ _ hep1
    intro hnd
    rw [reportsOf, objectiveT_snd, show seedsList = 0 :: [1, 2] from rfl, htr0, htr1,
      ht0, ht1, List.map_map] at hnd
    have hcount := List.nodup_iff_count_le_one.mp hnd 0
    simp [List.count_append, List.count_cons] at hcount

/-- Witness for the amended C3: the completed `envOk` trial's reported steps
are not distinct. -/
theorem trial_report_steps_witness :
    ¬ ((reportsOf envOk hpC).map Prod.snd).Nodup :=
  (trial_report_steps envOk hpC (by rw [envOk_objective]; rfl)).2

/-- A second completing environment (distinct from `envOk`) used to refute
claim C3 as stated. -/
def envC3x : Env :=
  { lossTrain := fun _ _ => .ok 1
    lossVal := fun _ _ => .ok (3/4)
    shouldPrune := fun _ _ => false
    evalTest := fun _ _ => (2/5, 1/5)
    stdFn := fun _ => 0 }

theorem envC3x_seed (s : Nat) :
    epochLoopT envC3x s (List.range maxEpochs) none none 0 0
      = (.ok (some (2/5, 1/5), 10), constTrace s (3/4)) :=
  const_seed_run envC3x s (3/4) (fun _ _ => ⟨1, rfl⟩) (fun _ _ => rfl) (fun _ _ => rfl)

/-- The `DetailedResult` of the `envC3x` trial. -/
def dC3x : DetailedResult :=
  { hyperparams := hpC
    aucs_per_seed := [2/5, 2/5, 2/5]
    pr_aucs_per_seed := [1/5, 1/5, 1/5]
    mean_auc := 2/5
    std_auc := 0
    mean_pr_auc := 1/5
    seeds := seedsList }

theorem envC3x_objective :
    objectiveT envC3x hpC
      = (.ok (2/5, dC3x), constTrace 0 (3/4) ++ constTrace 1 (3/4) ++ constTrace 2 (3/4)) := by
  rw [objectiveT, seedsList]
  rw [runSeedsT_cons_ok envC3x 0 _ _ _ _ _ _ (envC3x_seed 0)]
  rw [runSeedsT_cons_ok envC3x 1 _ _ _ _ _ _ (envC3x_seed 1)]
  rw [runSeedsT_cons_ok envC3x 2 _ _ _ _ _ _ (envC3x_seed 2)]
  rw [runSeedsT_nil]
  simp only [Option.getD_some]
  norm_num [dC3x, npMean, envC3x, seedsList]

/-- Counterexample to claim C3 as stated: the `envC3x` trial completes, yet
its reported steps are not distinct — the step passed to `trial.report` is
the bare epoch, not a combination with the seed index, so epoch 0 recurs for
each of the three seeds. -/
theorem report_step_collision_cex :
    isOkB (objectiveT envC3x hpC).1 = true ∧
    ¬ ((reportsOf envC3x hpC).map Prod.snd).Nodup := by
  constructor
  · rw [envC3x_objective]
    rfl
  · have hre : (reportsOf envC3x hpC).map Prod.snd
        = (((constTrace 0 (3/4) ++ constTrace 1 (3/4) ++ constTrace 2 (3/4)).map
            (fun x => (x.2.2, x.2.1))).map Prod.snd) := by
      rw [reportsOf, envC3x_objective]
    rw [hre]
    decide

/-- If an epoch loop does not end in a prune, disabling the pruner does not
change it at all. -/
theorem epochLoopT_noPrune_eq (env : Env) (s : Nat) :
    ∀ (E : List Nat) (best : Option ℚ) (bm : Option (ℚ × ℚ)) (pc le : Nat),
      (epochLoopT env s E best bm pc le).1 ≠ .error .pruned →
      epochLoopT (noPrune env) s E best bm pc le = epochLoopT env s E best bm pc le := by
  intro E
  induction E with
  | nil => intro best bm pc le _; rfl
  | cons e rest ih =>
    intro best bm pc le h
    rcases hTr : env.lossTrain s e with m | w
    · rw [epochLoopT_cons_errTrain env s e rest best bm pc le m hTr,
        epochLoopT_cons_errTrain (noPrune env) s e rest best bm pc le m hTr]
    · rcases hV : env.lossVal s e with m | lv
      · rw [epochLoopT_cons_errVal env s e rest best bm pc le w m hTr hV,
          epochLoopT_cons_errVal (noPrune env) s e rest best bm pc le w m hTr hV]
      · rcases hP : env.shouldPrune s e with _ | _
        · have hP' : (noPrune env).shouldPrune s e = false := rfl
          rcases hI : improves best lv with _ | _
          · by_cases hPc : patienceEpochs ≤ pc + 1
            · rw [epochLoopT_cons_stop env s e rest best bm pc le w lv hTr hV hP hI hPc,
                epochLoopT_cons_stop (noPrune env) s e rest best bm pc le w lv hTr hV hP' hI hPc]
            · rw [epochLoopT_cons_wait env s e rest best bm pc le w lv hTr hV hP hI hPc] at h ⊢
              rw [epochLoopT_cons_wait (noPrune env) s e rest best bm pc le w lv hTr hV hP' hI hPc]
              rw [ih best bm (pc + 1) e (by intro hc; exact h (by simp only [hc]))]
          · rw [epochLoopT_cons_improve env s e rest best bm pc le w lv hTr hV hP hI] at h ⊢
            rw [epochLoopT_cons_improve (noPrune env) s e rest best bm pc le w lv hTr hV hP' hI]
            rw [show (noPrune env).evalTest = env.evalTest from rfl]
            rw [ih (some lv) (some (env.evalTest s e)) 0 e
              (by intro hc; exact h (by simp only [hc]))]
        · exfalso
          apply h
          rw [epochLoopT_cons_prune env s e rest best bm pc le w lv hTr hV hP]
    
/-- A pruned epoch loop stops at the step where the pruner fired: its trace
ends with that step, and the same loop with the pruner disabled has the
pruned trace as a prefix. -/
theorem epochLoopT_prune_prefix (env : Env) (s : Nat) :
    ∀ (E : List Nat) (best : Option ℚ) (bm : Option (ℚ × ℚ)) (pc le : Nat),
      (epochLoopT env s E best bm pc le).1 = .error .pruned →
      ∃ t₀ p, (epochLoopT env s E best bm pc le).2 = t₀ ++ [p] ∧
        env.shouldPrune p.1 p.2.1 = true ∧
        ∃ u, (epochLoopT (noPrune env) s E best bm pc le).2
          = (epochLoopT env s E best bm pc le).2 ++ u := by
  intro E
  induction E with
  | nil => intro best bm pc le h; rw [epochLoopT_nil] at h; simp at h
  | cons e rest ih =>
    intro best bm pc le h
    rcases hTr : env.lossTrain s e with m | w
    · rw [epochLoopT_cons_errTrain env s e rest best bm pc le m hTr] at h
      simp at h
    · rcases hV : env.lossVal s e with m | lv
      · rw [epochLoopT_cons_errVal env s e rest best bm pc le w m hTr hV] at h
        simp at h
      · rcases hP : env.shouldPrune s e with _ | _
        · have hP' : (noPrune env).shouldPrune s e = false := rfl
          rcases hI : improves best lv with _ | _
          · by_cases hPc : patienceEpochs ≤ pc + 1
            · rw [epochLoopT_cons_stop env s e rest best bm pc le w lv hTr hV hP hI hPc] at h
              simp at h
            · rw [epochLoopT_cons_wait env s e rest best bm pc le w lv hTr hV hP hI hPc] at h ⊢
              obtain ⟨t₀, p, ht, hsp, u, hu⟩ := ih best bm (pc + 1) e h
              refine ⟨(s, e, lv) :: t₀, p, by simp [ht], hsp, u, ?_⟩
              rw [epochLoopT_cons_wait (noPrune env) s e rest best bm pc le w lv hTr hV hP' hI hPc]
              simp [hu]
          · rw [epochLoopT_cons_improve env s e rest best bm pc le w lv hTr hV hP hI] at h ⊢
            obtain ⟨t₀, p, ht, hsp, u, hu⟩ := ih (some lv) (some (env.evalTest s e)) 0 e h
            refine ⟨(s, e, lv) :: t₀, p, by simp [ht], hsp, u, ?_⟩
            rw [epochLoopT_cons_improve (noPrune env) s e rest best bm pc le w lv hTr hV hP' hI]
            rw [show (noPrune env).evalTest = env.evalTest from rfl]
            simp [hu]
        · rw [epochLoopT_cons_prune env s e rest best bm pc le w lv hTr hV hP]
          refine ⟨[], (s, e, lv), by simp, hP, ?_⟩
          have hP' : (noPrune env).shouldPrune s e = false := rfl
          rcases hI : improves best lv with _ | _
          · by_cases hPc : patienceEpochs ≤ pc + 1
            · rw [epochLoopT_cons_stop (noPrune env) s e rest best bm pc le w lv hTr hV hP' hI hPc]
              exact ⟨[], rfl⟩
            · rw [epochLoopT_cons_wait (noPrune env) s e rest best bm pc le w lv hTr hV hP' hI hPc]
              exact ⟨_, rfl⟩
          · rw [epochLoopT_cons_improve (noPrune env) s e rest best bm pc le w lv hTr hV hP' hI]
            exact ⟨_, rfl⟩

/-- If a multi-seed run does not end in a prune, disabling the pruner does
not change it. -/
theorem runSeedsT_noPrune_eq (env : Env) :
    ∀ (ss : List Nat) (A P : List ℚ),
      (runSeedsT env ss A P).1 ≠ .error .pruned →
      runSeedsT (noPrune env) ss A P = runSeedsT env ss A P := by
  intro ss
  induction ss with
  | nil => intro A P _; rfl
  | cons s rest ih =>
    intro A P h
    rcases hep : epochLoopT env s (List.range maxEpochs) none none 0 0 with ⟨res, t1⟩
    have hnp : epochLoopT (noPrune env) s (List.range maxEpochs) none none 0 0 = (res, t1) := by
      rw [← hep]
      exact epochLoopT_noPrune_eq env s (List.range maxEpochs) none none 0 0
        (by
          rw [hep]
          intro hc
          cases res with
          | error ex =>
            rw [runSeedsT_cons_err env s rest A P ex t1 hep] at h
            exact h (by rw [show ex = TrialExc.pruned from by
              have := Except.error.injEq .. ▸ hc
              exact this])
          | ok p => simp at hc)
    cases res with
    | error ex =>
      rw [runSeedsT_cons_err env s rest A P ex t1 hep,
        runSeedsT_cons_err (noPrune env) s rest A P ex t1 hnp]
    | ok p =>
      obtain ⟨bm, le⟩ := p
      have hc := runSeedsT_cons_ok env s rest A P bm le t1 hep
      have hc' := runSeedsT_cons_ok (noPrune env) s rest A P bm le t1 hnp
      rw [hc] at h ⊢
      rw [hc']
      rw [show (noPrune env).evalTest = env.evalTest from rfl]
      rw [ih _ _ (by intro hx; exact h (by simp only [hx]))]

/-- Seed-level version of `epochLoopT_prune_prefix`: a pruned multi-seed run
ends at the firing step and is a prefix of the pruner-disabled run. -/
theorem runSeedsT_prune_prefix (env : Env) :
    ∀ (ss : List Nat) (A P : List ℚ),
      (runSeedsT env ss A P).1 = .error .pruned →
      ∃ t₀ p, (runSeedsT env ss A P).2 = t₀ ++ [p] ∧
        env.shouldPrune p.1 p.2.1 = true ∧
        ∃ u, (runSeedsT (noPrune env) ss A P).2 = (runSeedsT env ss A P).2 ++ u := by
  intro ss
  induction ss with
  | nil => intro A P h; rw [runSeedsT_nil] at h; simp at h
  | cons s rest ih =>
    intro A P h
    rcases hep : epochLoopT env s (List.range maxEpochs) none none 0 0 with ⟨res, t1⟩
    cases res with
    | error ex =>
      rw [runSeedsT_cons_err env s rest A P ex t1 hep] at h ⊢
      simp only at h
      have hex : ex = TrialExc.pruned := by
        have := Except.error.injEq .. ▸ h
        exact this
      subst hex
      obtain ⟨t₀, p, ht, hsp, u, hu⟩ :=
        epochLoopT_prune_prefix env s (List.range maxEpochs) none none 0 0 (by rw [hep])
      rw [hep] at ht hu
      simp only at ht hu
      refine ⟨t₀, p, ht, hsp, ?_⟩
      rcases hnp : epochLoopT (noPrune env) s (List.range maxEpochs) none none 0 0
        with ⟨res', t1'⟩
      rw [hnp] at hu
      simp only at hu
      cases res' with
      | error ex' =>
        rw [runSeedsT_cons_err (noPrune env) s rest A P ex' t1' hnp]
        exact ⟨u, hu⟩
      | ok p' =>
        obtain ⟨bm', le'⟩ := p'
        rw [runSeedsT_cons_ok (noPrune env) s rest A P bm' le' t1' hnp]
        refine ⟨u ++ (runSeedsT (noPrune env) rest
          (A ++ [(bm'.getD ((noPrune env).evalTest s le')).1])
          (P ++ [(bm'.getD ((noPrune env).evalTest s le')).2])).2, ?_⟩
        rw [hu]
        simp [List.append_assoc]
    | ok p =>
      obtain ⟨bm, le⟩ := p
      have hnp : epochLoopT (noPrune env) s (List.range maxEpochs) none none 0 0
          = (Except.ok (bm, le), t1) := by
        rw [← hep]
        exact epochLoopT_noPrune_eq env s (List.range maxEpochs) none none 0 0
          (by rw [hep]; simp)
      have hc := runSeedsT_cons_ok env s rest A P bm le t1 hep
      have hc' := runSeedsT_cons_ok (noPrune env) s rest A P bm le t1 hnp
      rw [hc] at h ⊢
      simp only at h
      obtain ⟨t₀, p', ht, hsp, u, hu⟩ := ih _ _ h
      refine ⟨t1 ++ t₀, p', by simp [ht, List.append_assoc], hsp, u, ?_⟩
      rw [hc']
      rw [show (noPrune env).evalTest = env.evalTest from rfl]
      rw [hu]
      simp [List.append_assoc]

theorem objectiveT_fst_err (env : Env) (hp : Hyperparams) (ex : TrialExc)
    (h : (objectiveT env hp).1 = .error ex) :
    (runSeedsT env seedsList [] []).1 = .error ex := by
  unfold objectiveT at h
  rcases hr : runSeedsT env seedsList [] [] with ⟨res, t⟩
  rw [hr] at h
  cases res with
  | error ex' =>
    simp only at h
    rw [show ex' = ex from by have := Except.error.injEq .. ▸ h; exact this]
  | ok p =>
    obtain ⟨aucs, praucs⟩ := p
    simp at h

/-- Claim C4: whenever the pruner fires — at any epoch of any seed — the
trial evaluation aborts by raising the pruning signal: the outcome is not a
success (so no objective value and no DetailedResult exist), the last
processed step is exactly the step at which the pruner fired, and the
processed steps form a prefix of what the same trial would have processed
with the pruner disabled — nothing past the firing step runs. -/
theorem pruning_aborts_trial (env : Env) (hp : Hyperparams)
    (h : (objectiveT env hp).1 = .error .pruned) :
    isOkB (objectiveT env hp).1 = false ∧
    ((objectiveT env hp).2.getLast?).map (fun p => env.shouldPrune p.1 p.2.1) = some true ∧
    (objectiveT (noPrune env) hp).2.take ((objectiveT env hp).2.length)
      = (objectiveT env hp).2 := by
  have hrs := objectiveT_fst_err env hp .pruned h
  obtain ⟨t₀, p, ht, hsp, u, hu⟩ := runSeedsT_prune_prefix env seedsList [] [] hrs
  refine ⟨by rw [h]; rfl, ?_, ?_⟩
  · rw [objectiveT_snd, ht, List.getLast?_concat]
    simp [hsp]
  · rw [objectiveT_snd env hp, objectiveT_snd (noPrune env) hp, hu]
    exact List.take_left _ _

/-- Collaborators whose pruner fires at seed 1, epoch 2 (not the first
seed). -/
def envPr1 : Env :=
  { lossTrain := fun _ _ => .ok 1
    lossVal := fun _ _ => .ok (1/2)
    shouldPrune := fun s e => s == 1 && e == 2
    evalTest := fun _ _ => (1/2, 1/3)
    stdFn := fun _ => 0 }

theorem envPr1_seed0 :
    epochLoopT envPr1 0 (List.range maxEpochs) none none 0 0
      = (.ok (some (1/2, 1/3), 10), constTrace 0 (1/2)) :=
  const_seed_run envPr1 0 (1/2) (fun _ _ => ⟨1, rfl⟩) (fun _ _ => rfl) (fun _ _ => rfl)

theorem envPr1_pruned : (objectiveT envPr1 hpC).1 = .error .pruned := by
  rw [objectiveT, seedsList]
  rw [runSeedsT_cons_ok envPr1 0 _ _ _ _ _ _ envPr1_seed0]
  have hseed1 : epochLoopT envPr1 1 (List.range maxEpochs) none none 0 0
      = (.error .pruned, [(1, 0, 1/2), (1, 1, 1/2), (1, 2, 1/2)]) := by
    rw [show List.range maxEpochs = 0 :: 1 :: 2 :: List.range' 3 97 by
      rw [show List.range maxEpochs = List.range' 0 100 from List.range_eq_range' 100]
      rw [List.range'_succ 0 99 1, List.range'_succ 1 98 1, List.range'_succ 2 97 1]]
    rw [epochLoopT_cons_improve envPr1 1 0 _ none none 0 0 1 (1/2) rfl rfl rfl
      (improves_none _)]
    rw [epochLoopT_cons_wait envPr1 1 1 _ _ _ 0 0 1 (1/2) rfl rfl rfl
      (improves_self _) (by norm_num [patienceEpochs])]
    rw [epochLoopT_cons_prune envPr1 1 2 _ _ _ 1 1 1 (1/2) rfl rfl rfl]
  rw [runSeedsT_cons_err envPr1 1 _ _ _ _ _ hseed1]

/-- Witness for C4: with the pruner firing at seed 1, epoch 2, the trial
outcome is not a success, the last processed step is the firing step, and
the processed steps are a prefix of the pruner-disabled run. -/
theorem pruning_aborts_trial_witness :
    isOkB (objectiveT envPr1 hpC).1 = false ∧
    ((objectiveT envPr1 hpC).2.getLast?).map (fun p => envPr1.shouldPrune p.1 p.2.1)
      = some true ∧
    (objectiveT (noPrune envPr1) hpC).2.take ((objectiveT envPr1 hpC).2.length)
      = (objectiveT envPr1 hpC).2 :=
  pruning_aborts_trial envPr1 hpC envPr1_pruned

/-- Collaborators whose pruner fires immediately: seed 0, epoch 0. -/
def envPr0 : Env :=
  { lossTrain := fun _ _ => .ok 1
    lossVal := fun _ _ => .ok (1/2)
    shouldPrune := fun s e => s == 0 && e == 0
    evalTest := fun _ _ => (1/2, 1/3)
    stdFn := fun _ => 0 }

theorem envPr0_pruned : objectiveT envPr0 hpC = (.error .pruned, [(0, 0, 1/2)]) := by
  rw [objectiveT, seedsList]
  have hseed0 : epochLoopT envPr0 0 (List.range maxEpochs) none none 0 0
      = (.error .pruned, [(0, 0, 1/2)]) := by
    rw [show List.range maxEpochs = 0 :: List.range' 1 99 by
      rw [show List.range maxEpochs = List.range' 0 100 from List.range_eq_range' 100]
      exact List.range'_succ 0 99 1]
    rw [epochLoopT_cons_prune envPr0 0 0 _ none none 0 0 1 (1/2) rfl rfl rfl]
  rw [runSeedsT_cons_err envPr0 0 _ _ _ _ _ hseed0]

/-- Claim C5 (the code contradicts it): line 146's `except Exception` also
catches `optuna.TrialPruned` — in Python the pruning signal derives from
`Exception` — so a pruned trial is logged with `logger.error` before the
signal is re-raised.  Evaluated at the failing input: trial number 7 with a
pruner that fires at seed 0, epoch 0, the outcome is the pruning signal and
yet an error line for trial 7 was logged. -/
theorem pruned_trial_logged_as_error :
    (objectiveLogged envPr0 hpC 7).1.1 = .error .pruned ∧
    (objectiveLogged envPr0 hpC 7).2
      = ["Error in trial " ++ toString 7 ++ ": " ++ excMessage .pruned] ∧
    (objectiveLogged envPr0 hpC 7).2 ≠ [] := by
  have h := envPr0_pruned
  rw [objectiveLogged, h]
  exact ⟨rfl, rfl, by simp⟩

/-! ### The Search Driver: study snapshot callback and finalization
(lines 150-230).  Study state is modelled as a list of finished-trial
records; JSON values as an inductive `JVal`; Python `dict.update` as an
association-list update that overwrites existing keys in place and appends
new ones. -/

/-- A JSON-serializable value, as the script passes to `json.dump`. -/
inductive JVal where
  | num : ℚ → JVal
  | str : String → JVal
  | arr : List JVal → JVal
  | obj : List (String × JVal) → JVal

/-- The terminal state recorded on an Optuna trial (`t.state`). -/
inductive TrialState where
  | running : TrialState
  | complete : TrialState
  | pruned : TrialState
  | fail : TrialState
  | waiting : TrialState
deriving DecidableEq, BEq

/-- `t.state.name` as used at line 209. -/
def stateName : TrialState → String
  | .running => "RUNNING"
  | .complete => "COMPLETE"
  | .pruned => "PRUNED"
  | .fail => "FAIL"
  | .waiting => "WAITING"

/-- One finished trial as the callback and finalization code observe it:
`t.number`, `t.state`, `t.value`, `t.params`, and
`t.user_attrs["detailed_results"]` when present (the only user attribute this
script ever sets), as a JSON object's fields. -/
structure StudyTrial where
  number : Nat
  state : TrialState
  value : Option ℚ
  params : List (String × JVal)
  detailed : Option (List (String × JVal))

/-- Python `d[k] = v` on an insertion-ordered dict: overwrite in place if the
key exists, else append. -/
def dictSet (d : List (String × JVal)) (k : String) (v : JVal) : List (String × JVal) :=
  if d.any (fun p => p.1 == k) then
    d.map (fun p => if p.1 == k then (k, v) else p)
  else d ++ [(k, v)]

/-- Python `d.update(e)`. -/
def dictUpdate (d e : List (String × JVal)) : List (String × JVal) :=
  e.foldl (fun acc p => dictSet acc p.1 p.2) d

/-- Line 171: the condition under which `save_callback` writes the snapshot
file — `trial.number % 5 == 0`, with no condition on the trial's state. -/
def saveCallbackWrites (t : StudyTrial) : Bool := t.number % 5 == 0

/-- Lines 176-179: one snapshot entry — `{"trial_number": .., "value": ..}`
updated with the trial's params and, when present, with the
`detailed_results` fields (updating with the empty dict when absent is a
no-op, matching the skipped `if`). -/
def intermediateEntry (t : StudyTrial) (v : ℚ) : List (String × JVal) :=
  dictUpdate
    (dictUpdate [("trial_number", JVal.num t.number), ("value", JVal.num v)] t.params)
    (t.detailed.getD [])

/-- Lines 173-181: the snapshot content — one entry per trial whose `value`
is not `None`, in study order. -/
def intermediateResults (ts : List StudyTrial) : List (List (String × JVal)) :=
  ts.filterMap (fun t => t.value.map (fun v => intermediateEntry t v))

/-- Lines 170-181: the state of `intermediate_results.json` after the
callback runs for finished trial `t` against study state `ts`: opened with
mode "w" (overwritten) exactly when the write condition holds, untouched
otherwise. -/
def fileAfterCallback (old : Option (List (List (String × JVal))))
    (ts : List StudyTrial) (t : StudyTrial) : Option (List (List (String × JVal))) :=
  if saveCallbackWrites t then some (intermediateResults ts) else old

/-- Modelled from the spec words of claim C7 (for comparison only): the write
happens exactly when the finished trial's index is a multiple of 5 *and that
trial completed*.  The code's condition is `saveCallbackWrites`. -/
def specWriteCondition (t : StudyTrial) : Bool :=
  (t.number % 5 == 0) && (t.state == TrialState.complete)

/-- A pruned trial with index 5. -/
def trialPr5 : StudyTrial :=
  { number := 5, state := .pruned, value := none, params := [], detailed := none }

/-- Counterexample to claim C7 as stated: the callback's write condition
fires for a *pruned* trial with index 5, where the claim's condition (index
multiple of 5 and trial completed) does not hold. -/
theorem save_callback_fires_for_pruned_cex :
    saveCallbackWrites trialPr5 = true ∧ specWriteCondition trialPr5 = false :=
  ⟨rfl, rfl⟩

/-- Every projection of a finished trial's `value`. -/
def valueOr0 (t : StudyTrial) : ℚ := t.value.getD 0

/-- `filterMap` over trial values rewritten as filter-then-map: trials
without a value contribute nothing. -/
theorem filterMap_value_map {β : Type} (g : StudyTrial → ℚ → β) :
    ∀ ts : List StudyTrial,
      ts.filterMap (fun t => t.value.map (g t))
        = (ts.filter (fun t => t.value.isSome)).map (fun t => g t (valueOr0 t)) := by
  intro ts
  induction ts with
  | nil => rfl
  | cons t rest ih =>
    rcases hv : t.value with _ | v
    · simp [List.filterMap_cons, List.filter_cons, hv, ih, valueOr0]
    · simp [List.filterMap_cons, List.filter_cons, hv, ih, valueOr0]

/-- Claim C7, amended: the snapshot callback writes (overwriting whatever was
there — the result does not depend on the previous file) exactly when the
finished trial's index is a multiple of 5, regardless of that trial's
terminal state; the artifact has one entry per trial with a value — trial
number and value, hyperparameters merged in, DetailedResult fields merged in
when present — and trials without a value are excluded. -/
theorem save_callback_behaviour :
    (∀ t : StudyTrial, saveCallbackWrites t = true ↔ t.number % 5 = 0) ∧
    (∀ ts : List StudyTrial,
      intermediateResults ts
        = (ts.filter (fun t => t.value.isSome)).map
            (fun t => intermediateEntry t (valueOr0 t))) ∧
    (∀ (old₁ old₂ : Option (List (List (String × JVal)))) (ts : List StudyTrial)
      (t : StudyTrial), saveCallbackWrites t = true →
      fileAfterCallback old₁ ts t = fileAfterCallback old₂ ts t) := by
  refine ⟨?_, ?_, ?_⟩
  · intro t
    simp [saveCallbackWrites]
  · exact fun ts => filterMap_value_map (fun t v => intermediateEntry t v) ts
  · intro o1 o2 ts t h
    simp [fileAfterCallback, h]

/-- A completed trial with index 10 for the C7 witness. -/
def trialN10 : StudyTrial :=
  { number := 10, state := .complete, value := some 1, params := [], detailed := none }

/-- Witness for the amended C7: on a write, the new file content is
independent of the previous content. -/
theorem save_callback_behaviour_witness :
    fileAfterCallback none [] trialN10 = fileAfterCallback (some []) [] trialN10 :=
  save_callback_behaviour.2.2 none (some []) [] trialN10 rfl

/-- A trial that counts for best-trial selection: completed with a value. -/
def completedWithValue (t : StudyTrial) : Bool :=
  (t.state == TrialState.complete) && t.value.isSome

/-- One fold step of best-trial selection: keep the completed-with-value
trial of strictly larger value (the earlier trial wins ties). -/
def bestStep (acc : Option StudyTrial) (t : StudyTrial) : Option StudyTrial :=
  if completedWithValue t then
    match acc with
    | none => some t
    | some b => if valueOr0 b < valueOr0 t then some t else some b
  else acc

/-- Line 193 `study.best_trial`: models the search library's documented
best-trial selection under `direction="maximize"` (line 164) — the completed
trial with maximal objective value; `none` when no trial completed. -/
def bestTrial (ts : List StudyTrial) : Option StudyTrial :=
  ts.foldl bestStep none

/-- Lines 205-212: one entry of the final all-trials dump: number, value,
nested params, terminal state name, and the DetailedResult when present. -/
def trialDump (t : StudyTrial) (v : ℚ) : List (String × JVal) :=
  let base := [("trial_number", JVal.num t.number), ("value", JVal.num v),
    ("params", JVal.obj t.params), ("state", JVal.str (stateName t.state))]
  match t.detailed with
  | some d => base ++ [("detailed_results", JVal.obj d)]
  | none => base

/-- The JSON artifacts lines 193-230 write at search completion. -/
structure FinalArtifacts where
  bestParams : List (String × JVal)
  bestDetailed : Option (List (String × JVal))
  allTrials : List (List (String × JVal))
  paramImportance : Option (List (String × ℚ))

/-- Lines 193-230: the finalization block — best trial's params alone, its
DetailedResult alone when present, the per-trial dump for every trial with a
value, and the importance mapping (computed by the library, here an input)
exactly when more than 10 trials ran.  `none` when `study.best_trial`
raises (no completed trial). -/
def finalize (ts : List StudyTrial) (importance : List (String × ℚ)) :
    Option FinalArtifacts :=
  (bestTrial ts).map (fun b =>
    { bestParams := b.params
      bestDetailed := b.detailed
      allTrials := ts.filterMap (fun t => t.value.map (fun v => trialDump t v))
      paramImportance := if 10 < ts.length then some importance else none })

theorem bestStep_fold (ts : List StudyTrial) :
    ∀ (acc : Option StudyTrial) (b : StudyTrial),
      ts.foldl bestStep acc = some b →
      (acc = some b ∨ (b ∈ ts ∧ completedWithValue b = true)) ∧
      (∀ t ∈ ts, completedWithValue t = true → valueOr0 t ≤ valueOr0 b) ∧
      (∀ a, acc = some a → valueOr0 a ≤ valueOr0 b) := by
  induction ts with
  | nil =>
    intro acc b h
    simp only [List.foldl_nil] at h
    refine ⟨Or.inl h, by simp, ?_⟩
    intro a ha
    rw [ha] at h
    rw [show a = b from by have := Option.some.injEq .. ▸ h; exact this]
  | cons t rest ih =>
    intro acc b h
    rw [List.foldl_cons] at h
    obtain ⟨h1, h2, h3⟩ := ih (bestStep acc t) b h
    rcases hc : completedWithValue t with _ | _
    · have hstep : bestStep acc t = acc := by simp [bestStep, hc]
      rw [hstep] at h1 h3
      refine ⟨?_, ?_, h3⟩
      · rcases h1 with h1 | ⟨hm, hcw⟩
        · exact Or.inl h1
        · exact Or.inr ⟨List.mem_cons_of_mem t hm, hcw⟩
      · intro x hx hcx
        rcases List.mem_cons.mp hx with rfl | hx
        · rw [hc] at hcx
          exact absurd hcx (by simp)
        · exact h2 x hx hcx
    · rcases hacc : acc with _ | a
      · have hstep : bestStep none t = some t := by simp [bestStep, hc]
        rw [hacc, hstep] at h1 h3
        refine ⟨?_, ?_, by intro a ha; simp [hacc] at ha⟩
        · rcases h1 with h1 | ⟨hm, hcw⟩
          · exact Or.inr ⟨by
              rw [show b = t from by have := (Option.some.injEq ..) ▸ h1; exact this.symm]
              exact List.mem_cons_self t rest, by
              rw [show b = t from by have := (Option.some.injEq ..) ▸ h1; exact this.symm]
              exact hc⟩
          · exact Or.inr ⟨List.mem_cons_of_mem t hm, hcw⟩
        · intro x hx hcx
          rcases List.mem_cons.mp hx with rfl | hx
          · exact h3 x rfl
          · exact h2 x hx hcx
      · by_cases hv : valueOr0 a < valueOr0 t
        · have hstep : bestStep (some a) t = some t := by simp [bestStep, hc, hv]
          rw [hacc, hstep] at h1 h3
          refine ⟨?_, ?_, ?_⟩
          · rcases h1 with h1 | ⟨hm, hcw⟩
            · exact Or.inr ⟨by
                rw [show b = t from by have := (Option.some.injEq ..) ▸ h1; exact this.symm]
                exact List.mem_cons_self t rest, by
                rw [show b = t from by have := (Option.some.injEq ..) ▸ h1; exact this.symm]
                exact hc⟩
            · exact Or.inr ⟨List.mem_cons_of_mem t hm, hcw⟩
          · intro x hx hcx
            rcases List.mem_cons.mp hx with rfl | hx
            · exact h3 x rfl
            · exact h2 x hx hcx
          · intro a' ha'
            rw [show a' = a from by have := (Option.some.injEq ..) ▸ ha'; exact this.symm]
            exact le_of_lt (lt_of_lt_of_le hv (h3 t rfl))
        · have hstep : bestStep (some a) t = some a := by simp [bestStep, hc, hv]
          rw [hacc, hstep] at h1 h3
          refine ⟨?_, ?_, ?_⟩
          · rcases h1 with h1 | ⟨hm, hcw⟩
            · exact Or.inl (hacc ▸ h1)
            · exact Or.inr ⟨List.mem_cons_of_mem t hm, hcw⟩
          · intro x hx hcx
            rcases List.mem_cons.mp hx with rfl | hx
            · exact le_trans (le_of_not_lt hv) (h3 a rfl)
            · exact h2 x hx hcx
          · intro a' ha'
            rw [show a' = a from by have := (Option.some.injEq ..) ▸ ha'; exact this.symm]
            exact h3 a rfl

/-- `study.best_trial` picks a completed trial of maximal value, whatever the
order of the trial list. -/
theorem bestTrial_maximal (ts : List StudyTrial) (b : StudyTrial)
    (h : bestTrial ts = some b) :
    b ∈ ts ∧ completedWithValue b = true ∧
    ∀ t ∈ ts, completedWithValue t = true → valueOr0 t ≤ valueOr0 b := by
  obtain ⟨h1, h2, _⟩ := bestStep_fold ts none b h
  rcases h1 with h1 | ⟨hm, hcw⟩
  · exact absurd h1 (by simp)
  · exact ⟨hm, hcw, h2⟩

/-- Claim C8: at completion the best trial has maximum objective value among
completed trials regardless of order; its params alone go to
`best_params.json`, its DetailedResult alone to `best_detailed_results.json`
(when present); every trial with a value gets a dump entry of number, value,
params, state and DetailedResult-if-present; and the parameter-importance
mapping is persisted iff more than 10 trials ran. -/
theorem finalize_artifacts (ts : List StudyTrial) (importance : List (String × ℚ))
    (fa : FinalArtifacts) (b : StudyTrial)
    (hfa : finalize ts importance = some fa) (hb : bestTrial ts = some b) :
    b ∈ ts ∧ completedWithValue b = true ∧
    (∀ t ∈ ts, completedWithValue t = true → valueOr0 t ≤ valueOr0 b) ∧
    fa.bestParams = b.params ∧
    fa.bestDetailed = b.detailed ∧
    fa.allTrials = (ts.filter (fun t => t.value.isSome)).map (fun t => trialDump t (valueOr0 t)) ∧
    (fa.paramImportance = some importance ↔ 10 < ts.length) := by
  obtain ⟨hm, hcw, hmax⟩ := bestTrial_maximal ts b hb
  rw [finalize, hb, Option.map_some'] at hfa
  have hrec := (Option.some.injEq ..) ▸ hfa
  refine ⟨hm, hcw, hmax, by rw [← hrec], by rw [← hrec], ?_, ?_⟩
  · rw [← hrec]
    exact filterMap_value_map (fun t v => trialDump t v) ts
  · rw [← hrec]
    by_cases hlen : 10 < ts.length
    · simp [hlen]
    · simp [hlen]

/-- Three completed trials with objective values 0.70, 0.85, 0.60. -/
def t80 : StudyTrial :=
  { number := 0, state := .complete, value := some (7/10),
    params := [("lr", JVal.num 1)], detailed := none }

def t81 : StudyTrial :=
  { number := 1, state := .complete, value := some (17/20),
    params := [("lr", JVal.num 2)], detailed := some [("results", JVal.obj [])] }

def t82 : StudyTrial :=
  { number := 2, state := .complete, value := some (3/5),
    params := [("lr", JVal.num 3)], detailed := none }

def ts8 : List StudyTrial := [t80, t81, t82]

def imp8 : List (String × ℚ) := [("lr", 1)]

theorem bestStep_none_of (t : StudyTrial) (h : completedWithValue t = true) :
    bestStep none t = some t := by
  simp [bestStep, h]

theorem bestStep_lt (b t : StudyTrial) (h : completedWithValue t = true)
    (hv : valueOr0 b < valueOr0 t) : bestStep (some b) t = some t := by
  simp [bestStep, h, hv]

theorem bestStep_ge (b t : StudyTrial) (h : completedWithValue t = true)
    (hv : ¬ valueOr0 b < valueOr0 t) : bestStep (some b) t = some b := by
  simp [bestStep, h, hv]

theorem ts8_best : bestTrial ts8 = some t81 := by
  rw [bestTrial, ts8]
  rw [List.foldl_cons, List.foldl_cons, List.foldl_cons, List.foldl_nil]
  rw [bestStep_none_of t80 rfl]
  rw [bestStep_lt t80 t81 rfl (by norm_num [valueOr0, t80, t81])]
  rw [bestStep_ge t81 t82 rfl (by norm_num [valueOr0, t81, t82])]

/-- The artifacts the finalization block produces for `ts8`. -/
def fa8 : FinalArtifacts :=
  { bestParams := t81.params
    bestDetailed := t81.detailed
    allTrials := [trialDump t80 (7/10), trialDump t81 (17/20), trialDump t82 (3/5)]
    paramImportance := none }

theorem ts8_finalize : finalize ts8 imp8 = some fa8 := by
  rw [finalize, ts8_best, Option.map_some']
  rw [show (ts8.filterMap fun t => t.value.map fun v => trialDump t v)
      = [trialDump t80 (7/10), trialDump t81 (17/20), trialDump t82 (3/5)] from by
    rw [ts8]
    simp [List.filterMap_cons, t80, t81, t82]]
  rw [show (if 10 < ts8.length then some imp8 else none) = none from by
    rw [ts8]
    simp]
  rfl

/-- Witness for C8: on trials with values [0.70, 0.85, 0.60] the 0.85 trial
is selected as best; its params and DetailedResult alone are persisted, the
dump covers all three valued trials, and no importance mapping is written
for only 3 trials. -/
theorem finalize_artifacts_witness :
    t81 ∈ ts8 ∧ completedWithValue t81 = true ∧
    fa8.bestParams = t81.params ∧
    fa8.bestDetailed = t81.detailed ∧
    fa8.allTrials
      = (ts8.filter (fun t => t.value.isSome)).map (fun t => trialDump t (valueOr0 t)) ∧
    (fa8.paramImportance = some imp8 ↔ 10 < ts8.length) := by
  have H := finalize_artifacts ts8 imp8 fa8 t81 ts8_finalize ts8_best
  exact ⟨H.1, H.2.1, H.2.2.2.1, H.2.2.2.2.1, H.2.2.2.2.2.1, H.2.2.2.2.2.2⟩

end FTTOptuna
